import Mathlib

/-!
Shallow embedding of the color/size conversion tool.

The embedding follows the Python source:
- `src/services/conversion_service.py` — rule access (`get_color_rules`,
  `get_size_rules`, `add_color_rule`), the matcher (`convert_color`,
  `convert_size`), the composite resolver (`convert_composite`,
  `_parse_composite_value`);
- `src/pages/conversion_processing.py` — the batch orchestrator
  (`auto_convert_batch`);
- `src/services/insert_service.py` — the upsert writer
  (`insert_tm9030color`, `_build_tm9030color_insert_query`, `batch_insert`);
- `src/models/conversion.py`, `src/models/product.py` — data models.

Modelling conventions: Python floats are embedded as `ℚ` (the spec treats
confidence as a real in [0,1]); `datetime.now()` values are abstract `Nat`
timestamps passed as parameters; fallible service calls (which may raise
in Python) are oracles returning `Except`; Python `str.lower()` is
`pyLower` (per-character case mapping), substring tests (`in`) are
`occursIn` on the character lists, `str.strip()` is `pyStrip`.
-/

namespace ColorSizeTool

/-- `src/models/conversion.py` `ConversionRule` dataclass (the rows of
`color_conversion_rules` / `size_conversion_rules`; in the color table the
columns are named `source_color_name` etc., mapped to these field names by
`get_color_rules`). Timestamps are abstract `Nat`s. -/
structure ConversionRule where
  id : Int := 0
  source_name : String := ""
  target_id : Int := 0
  target_name : String := ""
  confidence : ℚ := 1
  is_active : Bool := true
  created_at : Nat := 0
  updated_at : Nat := 0
  deriving Repr, DecidableEq

/-- Does the first character list occur as a leading segment of the second? -/
def leadingSeg : List Char → List Char → Bool
  | [], _ => true
  | _ :: _, [] => false
  | a :: as, b :: bs => a == b && leadingSeg as bs

/-- Does `needle` occur contiguously inside `hay`? -/
def occursIn (needle : List Char) : List Char → Bool
  | [] => needle == []
  | c :: t => leadingSeg needle (c :: t) || occursIn needle t

/-- Python `s.lower()`, as a character list (case mapping per character;
identity on the Japanese characters appearing in this repository). -/
def pyLower (s : String) : List Char :=
  s.toList.map Char.toLower

/-- The exact-match test of `convert_color` / `convert_size`:
`rule.source_name.lower() == name.lower()`. -/
def exactMatch (name : String) (r : ConversionRule) : Bool :=
  pyLower r.source_name == pyLower name

/-- The substring-match test of `convert_color` / `convert_size`:
`name.lower() in rule.source_name.lower() or rule.source_name.lower() in name.lower()`. -/
def subMatch (name : String) (r : ConversionRule) : Bool :=
  occursIn (pyLower name) (pyLower r.source_name) ||
    occursIn (pyLower r.source_name) (pyLower name)

/-- `ConversionService.convert_color` (conversion_service.py:213-235): empty
guard, then first exact match with stored confidence, then first
substring match with confidence `* 0.8`, else no match. The rule list
argument stands for the value of `self.get_color_rules()`. -/
def convert_color (color_name : String) (rules : List ConversionRule) :
    Option (Int × String × ℚ) :=
  if color_name = "" then none
  else
    match rules.find? (exactMatch color_name) with
    | some r => some (r.target_id, r.target_name, r.confidence)
    | none =>
      match rules.find? (subMatch color_name) with
      | some r => some (r.target_id, r.target_name, r.confidence * (4/5))
      | none => none

/-- `ConversionService.convert_size` (conversion_service.py:237-259); same
algorithm as `convert_color` over the size rules. -/
def convert_size (size_name : String) (rules : List ConversionRule) :
    Option (Int × String × ℚ) :=
  if size_name = "" then none
  else
    match rules.find? (exactMatch size_name) with
    | some r => some (r.target_id, r.target_name, r.confidence)
    | none =>
      match rules.find? (subMatch size_name) with
      | some r => some (r.target_id, r.target_name, r.confidence * (4/5))
      | none => none

/-- Strict lexicographic order on character lists (code-point order, which
on UTF-8 encoded text agrees with SQLite's default BINARY collation used
by `ORDER BY source_color_name`). -/
def charListLt : List Char → List Char → Bool
  | [], [] => false
  | [], _ :: _ => true
  | _ :: _, [] => false
  | a :: as, b :: bs => a < b || (a == b && charListLt as bs)

/-- Insert a rule into a list sorted by `source_name`, after any rules whose
key is less than or equal (so that repeated insertion is stable). -/
def insertByName (r : ConversionRule) : List ConversionRule → List ConversionRule
  | [] => [r]
  | x :: xs =>
    if charListLt r.source_name.toList x.source_name.toList then r :: x :: xs
    else x :: insertByName r xs

/-- The SQL `ORDER BY source_name` of `get_color_rules` / `get_size_rules`:
a stable sort by `source_name` ascending (stable insertion sort). -/
def orderBySourceName (rules : List ConversionRule) : List ConversionRule :=
  rules.foldl (fun acc r => insertByName r acc) []

/-- `get_color_rules` (conversion_service.py:33-65): the active rules of the
store ordered by `source_name` ascending (`WHERE is_active = 1 ORDER BY
source_color_name`). The store is the table in insertion order. -/
def get_color_rules (store : List ConversionRule) : List ConversionRule :=
  orderBySourceName (store.filter (·.is_active))

/-- `get_size_rules` (conversion_service.py:67-99), same shape for sizes. -/
def get_size_rules (store : List ConversionRule) : List ConversionRule :=
  orderBySourceName (store.filter (·.is_active))

/-- `ConversionService.add_color_rule` (conversion_service.py:101-135):
a plain `INSERT` of `(source_name, target_id, target_name, confidence,
is_active=1, now, now)`.  No validation of any argument is performed
(`Validators.validate_confidence` exists in `src/utils/validators.py` but
is never called), and the table has no CHECK constraint, so the row is
stored exactly as supplied. -/
def add_color_rule (store : List ConversionRule) (nextId : Int)
    (source_name : String) (target_id : Int) (target_name : String)
    (confidence : ℚ) (now : Nat) : List ConversionRule :=
  store ++ [{ id := nextId, source_name := source_name, target_id := target_id,
              target_name := target_name, confidence := confidence,
              is_active := true, created_at := now, updated_at := now }]

/-- Python `value.split(sep, 1)` for a single-character separator that is
known to occur: the part before the first occurrence of `sep` and the part
after it. -/
def splitOnce (sep : Char) (l : List Char) : List Char × List Char :=
  (l.takeWhile (· ≠ sep), (l.dropWhile (· ≠ sep)).drop 1)

/-- Remove leading and trailing whitespace characters from a character list. -/
def stripList (l : List Char) : List Char :=
  ((l.dropWhile Char.isWhitespace).reverse.dropWhile Char.isWhitespace).reverse

/-- Python `s.strip()` (trim whitespace at both ends). -/
def pyStrip (s : String) : String :=
  String.mk (stripList s.toList)

/-- The separator-trying loop of `_parse_composite_value`
(conversion_service.py:291-308) over a remaining separator list. When a
separator occurs in the value, `split(sep, 1)` yields exactly two parts
(the `len(parts) == 2` guard in the source always holds then), both
stripped; otherwise the next separator is tried. -/
def parseCompositeAux (value : String) : List Char → String × Option String
  | [] => (pyStrip value, none)
  | sep :: rest =>
    if value.toList.contains sep then
      let p := splitOnce sep value.toList
      (pyStrip (String.mk p.1), some (pyStrip (String.mk p.2)))
    else parseCompositeAux value rest

/-- `ConversionService._parse_composite_value` (conversion_service.py:291-308):
try the separators `/`, `-`, `_`, space in this order; split at the first
occurrence of the first one present; with no separator, the whole stripped
value is the color part and there is no size part. -/
def parse_composite_value (value : String) : String × Option String :=
  parseCompositeAux value ['/', '-', '_', ' ']

/-- `ConversionService.convert_composite` (conversion_service.py:261-289):
empty guard, parse, match each part (a falsy — empty — part is not
matched), then combine the confidences: average when both matched, half
the single confidence when one matched, `0.0` when none matched. -/
def convert_composite (composite_value : String)
    (colorRules sizeRules : List ConversionRule) :
    Option Int × Option Int × ℚ :=
  if composite_value = "" then (none, none, 0)
  else
    let parts := parse_composite_value composite_value
    let color_result := if parts.1 ≠ "" then convert_color parts.1 colorRules else none
    let size_result := match parts.2 with
      | some sn => if sn ≠ "" then convert_size sn sizeRules else none
      | none => none
    let color_id := color_result.map (·.1)
    let size_id := size_result.map (·.1)
    let confidence : ℚ :=
      match color_result, size_result with
      | some c, some s => (c.2.2 + s.2.2) / 2
      | some c, none => c.2.2 * (1/2)
      | none, some s => s.2.2 * (1/2)
      | none, none => 0
    (color_id, size_id, confidence)

/-- A row of the retrieved-data DataFrame as read by `auto_convert_batch`
(conversion_processing.py:385-450): `NaN`/missing values are `none`
(`pd.isna(row['color_id'])` is `color_id = none`). -/
structure ProductRow where
  product_id : String := ""
  color_name : Option String := none
  size_name : Option String := none
  composite_value : Option String := none
  color_id : Option Int := none
  size_id : Option Int := none
  deriving Repr, DecidableEq

/-- `src/models/conversion.py` `ConversionResult` dataclass with its
declared defaults (`confidence=0.0`, `conversion_type="auto"`,
`status="pending"`). -/
structure ConversionResult where
  product_id : String
  original_color_name : Option String := none
  original_size_name : Option String := none
  original_composite_value : Option String := none
  converted_color_id : Option Int := none
  converted_color_name : Option String := none
  converted_size_id : Option Int := none
  converted_size_name : Option String := none
  confidence : ℚ := 0
  conversion_type : String := "auto"
  status : String := "pending"
  error_message : Option String := none
  deriving Repr, DecidableEq

/-- The fields handed to `ConversionService.add_conversion_history`
(conversion_service.py:311-357) for one attempt (`id`, `created_at` and
`updated_at` are assigned by the database on insert and are omitted). -/
structure ConversionHistory where
  product_id : String
  original_value : String
  converted_color_id : Option Int
  converted_size_id : Option Int
  conversion_type : String
  status : String
  confidence : ℚ
  error_message : Option String
  deriving Repr, DecidableEq

/-- Python's `:.2f` format applied to the embedded rational: the value
rounded to two decimal places (round half away from zero; the float
original rounds the binary value half-to-even, an idealization noted in
the modelling conventions). -/
def fmt2 (q : ℚ) : String :=
  let c : Int := Int.fdiv (q.num * 200 + q.den) (2 * q.den)
  let m := c.natAbs
  let fracStr := (if m % 100 < 10 then "0" else "") ++ toString (m % 100)
  (if c < 0 then "-" else "") ++ toString (m / 100) ++ "." ++ fracStr

/-- The error message `f"信頼度不足: {result.confidence:.2f}"` set by
`auto_convert_batch` on a below-threshold record ("信頼度不足" =
"insufficient confidence"). -/
def insufficientConfidenceMessage (q : ℚ) : String :=
  "信頼度不足: " ++ fmt2 q

/-- The color branch of `auto_convert_batch` (conversion_processing.py:
401-407): on a match, set the converted id and name and raise the running
confidence with `max`; on no match, leave the result unchanged. -/
def applyColorResult (r : ConversionResult) (m : Option (Int × String × ℚ)) :
    ConversionResult :=
  match m with
  | none => r
  | some v => { r with converted_color_id := some v.1,
                       converted_color_name := some v.2.1,
                       confidence := max r.confidence v.2.2 }

/-- The size branch of `auto_convert_batch` (conversion_processing.py:409-415). -/
def applySizeResult (r : ConversionResult) (m : Option (Int × String × ℚ)) :
    ConversionResult :=
  match m with
  | none => r
  | some v => { r with converted_size_id := some v.1,
                       converted_size_name := some v.2.1,
                       confidence := max r.confidence v.2.2 }

/-- The confidence check of `auto_convert_batch` (conversion_processing.py:
417-422): `success` when `confidence >= threshold`, else `failed` with the
insufficient-confidence message. -/
def applyThreshold (threshold : ℚ) (r : ConversionResult) : ConversionResult :=
  if threshold ≤ r.confidence then { r with status := "success" }
  else { r with status := "failed",
                error_message := some (insufficientConfidenceMessage r.confidence) }

/-- The `ConversionResult(...)` constructed at the top of each
`auto_convert_batch` iteration (conversion_processing.py:394-399): only the
originals are filled in, the rest keeps the dataclass defaults. -/
def initResult (row : ProductRow) : ConversionResult :=
  { product_id := row.product_id, original_color_name := row.color_name,
    original_size_name := row.size_name,
    original_composite_value := row.composite_value }

/-- The body of the `try` block of one `auto_convert_batch` iteration up to
the threshold check (conversion_processing.py:394-422).  The service calls
`convert_color` / `convert_size` are oracles `cc` / `cs` that may raise
(`Except.error`), as they do in Python when the rule lookup fails
internally (a raised `ConversionError`). -/
def processRecord (cc cs : Option String → Except ε (Option (Int × String × ℚ)))
    (convertColors convertSizes : Bool) (threshold : ℚ) (row : ProductRow) :
    Except ε ConversionResult := do
  let r0 := initResult row
  let r1 ←
    if convertColors && row.color_id.isNone then do
      let m ← cc row.color_name
      pure (applyColorResult r0 m)
    else pure r0
  let r2 ←
    if convertSizes && row.size_id.isNone then do
      let m ← cs row.size_name
      pure (applySizeResult r1 m)
    else pure r1
  pure (applyThreshold threshold r2)

/-- Python `a or b` for an optional string `a`: `b` when `a` is `None` or
empty, else the string. -/
def pyOrElse (a : Option String) (b : String) : String :=
  match a with
  | some s => if s = "" then b else s
  | none => b

/-- Python `f"{x}"` for an optional string (`None` prints as `"None"`). -/
def pyShowOpt (a : Option String) : String :=
  match a with
  | some s => s
  | none => "None"

/-- The history entry recorded for one result (conversion_processing.py:
427-436): `original_value` is the composite value, or
`f"{color_name}/{size_name}"` when it is falsy. -/
def historyOf (r : ConversionResult) : ConversionHistory :=
  { product_id := r.product_id,
    original_value := pyOrElse r.original_composite_value
      (pyShowOpt r.original_color_name ++ "/" ++ pyShowOpt r.original_size_name),
    converted_color_id := r.converted_color_id,
    converted_size_id := r.converted_size_id,
    conversion_type := "auto", status := r.status,
    confidence := r.confidence, error_message := r.error_message }

/-- One iteration of the loop of `auto_convert_batch` (conversion_processing.py:
392-440) acting on the accumulated `(results, history)` state: on an
exception anywhere in the `try` block the iteration logs and `continue`s.
The result is appended before the history write, so a history-write
failure keeps the appended result but records no history entry. -/
def batchStep (cc cs : Option String → Except ε (Option (Int × String × ℚ)))
    (ah : ConversionHistory → Except ε Int)
    (convertColors convertSizes : Bool) (threshold : ℚ)
    (acc : List ConversionResult × List ConversionHistory) (row : ProductRow) :
    List ConversionResult × List ConversionHistory :=
  match processRecord cc cs convertColors convertSizes threshold row with
  | .error _ => acc
  | .ok r =>
    match ah (historyOf r) with
    | .error _ => (acc.1 ++ [r], acc.2)
    | .ok _ => (acc.1 ++ [r], acc.2 ++ [historyOf r])

/-- `auto_convert_batch` (conversion_processing.py:385-450): fold the
per-record step over the batch, starting from empty results and history.
`ah` is the `add_conversion_history` service call (which may raise);
`batchSize` is the `batch_size` argument, which the source accepts but
never uses. -/
def auto_convert_batch (cc cs : Option String → Except ε (Option (Int × String × ℚ)))
    (ah : ConversionHistory → Except ε Int)
    (convertColors convertSizes : Bool) (batchSize : Nat) (threshold : ℚ)
    (rows : List ProductRow) :
    List ConversionResult × List ConversionHistory :=
  let _ := batchSize
  rows.foldl (batchStep cc cs ah convertColors convertSizes threshold) ([], [])

/-- `src/models/product.py` `Product` dataclass (fields used by the insert
service; timestamps omitted as the writer stamps its own). -/
structure Product where
  product_id : String
  product_name : String := ""
  color_name : Option String := none
  size_name : Option String := none
  composite_value : Option String := none
  color_id : Option Int := none
  size_id : Option Int := none
  deriving Repr, DecidableEq

/-- A row of the `tm9030color` target table (insert_service.py:304-318):
`product_id` is UNIQUE, `created_at`/`updated_at` are abstract `Nat`
timestamps. -/
structure Tm9030Row where
  product_id : String
  product_name : String
  color_name : String
  color_id : Int
  created_at : Nat
  updated_at : Nat
  deriving Repr, DecidableEq

/-- The VALUES tuple built for one product by
`_build_tm9030color_insert_query` (insert_service.py:159-194):
`color_name` is `product.color_name or ''`, both timestamps are the
statement's `datetime.now()`.  The caller only passes products whose
`color_id` is set; a missing `color_id` defaults to `0` here. -/
def tm9030RowOf (now : Nat) (p : Product) : Tm9030Row :=
  { product_id := p.product_id, product_name := p.product_name,
    color_name := pyOrElse p.color_name "", color_id := p.color_id.getD 0,
    created_at := now, updated_at := now }

/-- The update applied by `ON CONFLICT(product_id) DO UPDATE SET`
(insert_service.py:186-192): overwrite `product_name`, `color_name`,
`color_id` and `updated_at` from the excluded (incoming) row; `created_at`
(and `product_id`) keep their stored values. -/
def overwriteWith (old incoming : Tm9030Row) : Tm9030Row :=
  { old with product_name := incoming.product_name,
             color_name := incoming.color_name,
             color_id := incoming.color_id,
             updated_at := incoming.updated_at }

/-- One row of the multi-VALUES `INSERT ... ON CONFLICT(product_id) DO
UPDATE` statement: if a row with the same `product_id` exists (at most one,
by the UNIQUE constraint) it is updated per `overwriteWith`, otherwise the
row is inserted. -/
def upsertTm9030 : List Tm9030Row → Tm9030Row → List Tm9030Row
  | [], r => [r]
  | x :: xs, r =>
    if x.product_id == r.product_id then overwriteWith x r :: xs
    else x :: upsertTm9030 xs r

/-- `InsertService.insert_tm9030color` (insert_service.py:87-121) as its
effect on the `tm9030color` table: only products with a set `color_id` are
written (the rest are skipped), each VALUES row upserted in order. -/
def insert_tm9030color (t : List Tm9030Row) (products : List Product) (now : Nat) :
    List Tm9030Row :=
  ((products.filter (fun p => p.color_id.isSome)).map (tm9030RowOf now)).foldl
    upsertTm9030 t

/-- The dict returned by `insert_tm9030color` / `insert_tm9035size`
(insert_service.py:112-117). -/
structure InsertOutcome where
  success : Bool
  inserted_count : Nat
  skipped_count : Nat
  message : String
  deriving Repr, DecidableEq

/-- The `batch_result` dict built by `InsertService.batch_insert`
(insert_service.py:233-280). -/
structure BatchResult where
  success : Bool
  total_products : Nat
  color_result : Option InsertOutcome
  size_result : Option InsertOutcome
  started_at : Nat
  completed_at : Option Nat
  errors : List String
  deriving Repr, DecidableEq

/-- `InsertService.batch_insert` (insert_service.py:233-280).  The two
writers are oracles that either return their outcome dict or raise
(`Except.error`); each is tried in its own `try` block, its error message
appended to `errors`; `success` is flipped to `False` at the end exactly
when `errors` is non-empty. -/
def batch_insert (colorWriter sizeWriter : List Product → Except String InsertOutcome)
    (products : List Product) (insertColors insertSizes : Bool)
    (startedAt completedAt : Nat) : BatchResult :=
  let b0 : BatchResult :=
    { success := true, total_products := products.length, color_result := none,
      size_result := none, started_at := startedAt, completed_at := none,
      errors := [] }
  let b1 :=
    if insertColors then
      match colorWriter products with
      | .ok res => { b0 with color_result := some res }
      | .error e => { b0 with errors := b0.errors ++ ["カラーデータ登録エラー: " ++ e] }
    else b0
  let b2 :=
    if insertSizes then
      match sizeWriter products with
      | .ok res => { b1 with size_result := some res }
      | .error e => { b1 with errors := b1.errors ++ ["サイズデータ登録エラー: " ++ e] }
    else b1
  let b3 := { b2 with completed_at := some completedAt }
  if b3.errors.isEmpty then b3 else { b3 with success := false }

/-! ### Helper lemmas -/

/-- `find?` returns the element at the first index satisfying the predicate. -/
theorem find?_of_first {α : Type _} (l : List α) (p : α → Bool) (i : Nat)
    (hi : i < l.length) (hp : p (l.get ⟨i, hi⟩) = true)
    (hmin : ∀ j (hj : j < i), p (l.get ⟨j, Nat.lt_trans hj hi⟩) = false) :
    l.find? p = some (l.get ⟨i, hi⟩) := by
  rw [List.find?_eq_some_iff_getElem]
  refine ⟨hp, i, hi, rfl, ?_⟩
  intro j hj
  have := hmin j hj
  simp only [List.get_eq_getElem] at this
  simp [this]

/-- Skipping a separator that does not occur in the value. -/
theorem parseCompositeAux_cons_of_not_mem (s : String) (c : Char) (rest : List Char)
    (h : c ∉ s.toList) :
    parseCompositeAux s (c :: rest) = parseCompositeAux s rest := by
  have hc : s.toList.contains c = false := by simpa using h
  simp only [parseCompositeAux, hc, Bool.false_eq_true, if_false]

/-- `splitOnce` at the first occurrence of `c`. -/
theorem splitOnce_eq_of_decomp (c : Char) (l₁ l₂ : List Char) (h : c ∉ l₁) :
    splitOnce c (l₁ ++ c :: l₂) = (l₁, l₂) := by
  induction l₁ with
  | nil => simp [splitOnce]
  | cons a as ih =>
    have ha : a ≠ c := fun hac => h (hac ▸ List.mem_cons_self a as)
    have h' : c ∉ as := fun hmem => h (List.mem_cons_of_mem a hmem)
    have hrec := ih h'
    rw [Prod.mk.injEq] at hrec
    simp only [splitOnce, List.cons_append, List.takeWhile_cons, List.dropWhile_cons,
      ne_eq, decide_not, List.drop_one] at hrec ⊢
    simp [ha, hrec.1, hrec.2]

/-- Splitting branch of the separator loop: when the value decomposes at
the first occurrence of the separator currently tried. -/
theorem parseCompositeAux_split (s : String) (c : Char) (rest : List Char)
    (l₁ l₂ : List Char) (hdecomp : s.toList = l₁ ++ c :: l₂) (hnotin : c ∉ l₁) :
    parseCompositeAux s (c :: rest) =
      (pyStrip (String.mk l₁), some (pyStrip (String.mk l₂))) := by
  have hmem : s.toList.contains c = true := by
    rw [hdecomp]; simp
  simp only [parseCompositeAux, hmem, if_true]
  have hsplit : splitOnce c s.toList = (l₁, l₂) := by
    rw [hdecomp]; exact splitOnce_eq_of_decomp c l₁ l₂ hnotin
  rw [hsplit]

/-- C5: `_parse_composite_value` tries the delimiters `/`, `-`, `_`, space in
this priority order; on the first delimiter present it splits at that
delimiter's first occurrence into exactly two parts, trims both, and
returns `(left, right)`; with no delimiter present it returns the whole
trimmed string as the color part and no size part.  In particular
`split("レッド/M") = ("レッド", "M")`, `split("Blue-L") = ("Blue", "L")` and
`split("GreenS") = ("GreenS", None)`. -/
theorem claim_C5_parse_composite_value :
    (parse_composite_value "レッド/M" = ("レッド", some "M") ∧
     parse_composite_value "Blue-L" = ("Blue", some "L") ∧
     parse_composite_value "GreenS" = ("GreenS", none)) ∧
    (∀ s : String, (∀ c ∈ (['/', '-', '_', ' '] : List Char), c ∉ s.toList) →
      parse_composite_value s = (pyStrip s, none)) ∧
    (∀ s : String, ∀ i, ∀ hi : i < (['/', '-', '_', ' '] : List Char).length,
      (∀ j, ∀ hj : j < i,
        (['/', '-', '_', ' '] : List Char).get ⟨j, Nat.lt_trans hj hi⟩ ∉ s.toList) →
      ∀ l₁ l₂ : List Char,
        s.toList = l₁ ++ (['/', '-', '_', ' '] : List Char).get ⟨i, hi⟩ :: l₂ →
        (['/', '-', '_', ' '] : List Char).get ⟨i, hi⟩ ∉ l₁ →
        parse_composite_value s =
          (pyStrip (String.mk l₁), some (pyStrip (String.mk l₂)))) := by
  refine ⟨⟨by decide, by decide, by decide⟩, ?_, ?_⟩
  · intro s hnone
    unfold parse_composite_value
    rw [parseCompositeAux_cons_of_not_mem s _ _ (hnone '/' (by decide)),
        parseCompositeAux_cons_of_not_mem s _ _ (hnone '-' (by decide)),
        parseCompositeAux_cons_of_not_mem s _ _ (hnone '_' (by decide)),
        parseCompositeAux_cons_of_not_mem s _ _ (hnone ' ' (by decide))]
    rfl
  · intro s i hi hearlier l₁ l₂ hdecomp hnotin
    unfold parse_composite_value
    match i, hi with
    | 0, _ =>
      exact parseCompositeAux_split s '/' _ l₁ l₂ hdecomp hnotin
    | 1, _ =>
      rw [parseCompositeAux_cons_of_not_mem s _ _
        (show ('/' : Char) ∉ s.toList from hearlier 0 (by omega))]
      exact parseCompositeAux_split s '-' _ l₁ l₂ hdecomp hnotin
    | 2, _ =>
      rw [parseCompositeAux_cons_of_not_mem s _ _
            (show ('/' : Char) ∉ s.toList from hearlier 0 (by omega)),
          parseCompositeAux_cons_of_not_mem s _ _
            (show ('-' : Char) ∉ s.toList from hearlier 1 (by omega))]
      exact parseCompositeAux_split s '_' _ l₁ l₂ hdecomp hnotin
    | 3, _ =>
      rw [parseCompositeAux_cons_of_not_mem s _ _
            (show ('/' : Char) ∉ s.toList from hearlier 0 (by omega)),
          parseCompositeAux_cons_of_not_mem s _ _
            (show ('-' : Char) ∉ s.toList from hearlier 1 (by omega)),
          parseCompositeAux_cons_of_not_mem s _ _
            (show ('_' : Char) ∉ s.toList from hearlier 2 (by omega))]
      exact parseCompositeAux_split s ' ' _ l₁ l₂ hdecomp hnotin

/-- Witness for C5: the generic splitting clause applied to a concrete
value whose first present delimiter is `/`, evaluated. -/
theorem claim_C5_parse_composite_value_witness :
    parse_composite_value "a/b-c" = ("a", some "b-c") := by
  have h := claim_C5_parse_composite_value.2.2 "a/b-c" 0 (by decide)
    (fun j hj => absurd hj (Nat.not_lt_zero j)) ['a'] ['b', '-', 'c']
    (by decide) (by decide)
  exact h.trans (by decide)

/-- C2: for a non-empty name, when some rule of the store's ordered active
rule list (`get_color_rules`: ordered by `source_name` ascending)
case-insensitively equals the name, `convert_color` returns the first such
rule in that order — in particular the first of any duplicates — with its
`target_id`, `target_name` and stored confidence unmodified. -/
theorem claim_C2_convert_color_first_exact_match (store : List ConversionRule)
    (name : String) (rules : List ConversionRule)
    (hrules : rules = get_color_rules store) (hname : name ≠ "")
    (i : Nat) (hi : i < rules.length)
    (hex : exactMatch name (rules.get ⟨i, hi⟩) = true)
    (hfirst : ∀ j, ∀ hj : j < i,
      exactMatch name (rules.get ⟨j, Nat.lt_trans hj hi⟩) = false) :
    convert_color name rules =
      some ((rules.get ⟨i, hi⟩).target_id, (rules.get ⟨i, hi⟩).target_name,
            (rules.get ⟨i, hi⟩).confidence) := by
  subst hrules
  have hfind : (get_color_rules store).find? (exactMatch name) =
      some ((get_color_rules store).get ⟨i, hi⟩) :=
    find?_of_first (get_color_rules store) (exactMatch name) i hi hex hfirst
  simp [convert_color, hname, hfind]

/-- Witness for C2: a store holding two active rules with the identical
`source_name` `"レッド"`; the one inserted first keeps its place under the
stable ordering and wins, delivering its distinct target and confidence. -/
theorem claim_C2_convert_color_first_exact_match_witness :
    convert_color "レッド"
        (get_color_rules
          [{ id := 1, source_name := "レッド", target_id := 1, target_name := "Red",
             confidence := mkRat 9 10 },
           { id := 2, source_name := "レッド", target_id := 9, target_name := "Crimson" }]) =
      some (1, "Red", mkRat 9 10) := by
  have h := claim_C2_convert_color_first_exact_match
    [{ id := 1, source_name := "レッド", target_id := 1, target_name := "Red",
       confidence := mkRat 9 10 },
     { id := 2, source_name := "レッド", target_id := 9, target_name := "Crimson" }]
    "レッド" _ rfl (by decide) 0 (by decide) (by decide)
    (fun j hj => absurd hj (Nat.not_lt_zero j))
  exact h.trans (by decide)

/-- C3: for a name with no exact match, `convert_color` returns the first
rule (in list order) to which the name stands in a case-insensitive
substring relation, with the stored confidence multiplied by `0.8`
(`4/5`); and when no rule stands in either relation it returns no match
(it is a total function — no exception). -/
theorem claim_C3_convert_color_substring_fallback (rules : List ConversionRule)
    (name : String) (hnoexact : ∀ r ∈ rules, exactMatch name r = false) :
    (∀ _hname : name ≠ "", ∀ i, ∀ hi : i < rules.length,
      subMatch name (rules.get ⟨i, hi⟩) = true →
      (∀ j, ∀ hj : j < i, subMatch name (rules.get ⟨j, Nat.lt_trans hj hi⟩) = false) →
      convert_color name rules =
        some ((rules.get ⟨i, hi⟩).target_id, (rules.get ⟨i, hi⟩).target_name,
              (rules.get ⟨i, hi⟩).confidence * (4/5))) ∧
    ((∀ r ∈ rules, subMatch name r = false) → convert_color name rules = none) := by
  have hfindex : rules.find? (exactMatch name) = none :=
    List.find?_eq_none.mpr (fun r hr => by simp [hnoexact r hr])
  constructor
  · intro hname i hi hsub hfirst
    have hfind : rules.find? (subMatch name) = some (rules.get ⟨i, hi⟩) :=
      find?_of_first rules (subMatch name) i hi hsub hfirst
    simp [convert_color, hname, hfindex, hfind]
  · intro hnosub
    have hfind : rules.find? (subMatch name) = none :=
      List.find?_eq_none.mpr (fun r hr => by simp [hnosub r hr])
    by_cases hname : name = ""
    · simp [convert_color, hname]
    · simp [convert_color, hname, hfindex, hfind]

/-- Witness for C3: `"ワイン"` is a substring of the sole rule's
`"ワインレッド"`, giving the rule's target at `0.8` of its confidence;
`"青"` stands in no relation to it and yields no match. -/
theorem claim_C3_convert_color_substring_fallback_witness :
    convert_color "ワイン"
        [{ id := 3, source_name := "ワインレッド", target_id := 3, target_name := "Red",
           confidence := 1 }] =
      some (3, "Red", (1 : ℚ) * (4/5)) ∧
    convert_color "青"
        [{ id := 3, source_name := "ワインレッド", target_id := 3, target_name := "Red",
           confidence := 1 }] = none := by
  constructor
  · have h := (claim_C3_convert_color_substring_fallback
      [{ id := 3, source_name := "ワインレッド", target_id := 3, target_name := "Red",
         confidence := 1 }] "ワイン" (by decide)).1
      (by decide) 0 (by decide) (by decide)
      (fun j hj => absurd hj (Nat.not_lt_zero j))
    exact h
  · exact (claim_C3_convert_color_substring_fallback
      [{ id := 3, source_name := "ワインレッド", target_id := 3, target_name := "Red",
         confidence := 1 }] "青" (by decide)).2 (by decide)

/-- The combined-confidence formula in the spec's words: average when both
parts resolved, half the single confidence when one resolved, `0.0` when
neither resolved. -/
def combineConfidenceSpec (c s : Option ℚ) : ℚ :=
  match c, s with
  | some x, some y => (x + y) / 2
  | some x, none => x * (1/2)
  | none, some y => y * (1/2)
  | none, none => 0

/-- The matcher outcome for the color part of a composite value
(conversion_service.py:268-270): the parsed color part, matched unless
falsy (empty). -/
def compositeColorMatch (v : String) (colorRules : List ConversionRule) :
    Option (Int × String × ℚ) :=
  if (parse_composite_value v).1 ≠ "" then
    convert_color (parse_composite_value v).1 colorRules
  else none

/-- The matcher outcome for the size part of a composite value
(conversion_service.py:268-271): the parsed size part if present, matched
unless falsy (empty). -/
def compositeSizeMatch (v : String) (sizeRules : List ConversionRule) :
    Option (Int × String × ℚ) :=
  match (parse_composite_value v).2 with
  | some sn => if sn ≠ "" then convert_size sn sizeRules else none
  | none => none

/-- The confidence `match` of `convert_composite` computes the spec-side
combination of the two optional confidences. -/
theorem combine_match_eq_spec (co so : Option (Int × String × ℚ)) :
    (match co, so with
      | some c, some s => (c.2.2 + s.2.2) / 2
      | some c, none => c.2.2 * (1/2)
      | none, some s => s.2.2 * (1/2)
      | none, none => (0:ℚ)) =
    combineConfidenceSpec (co.map (·.2.2)) (so.map (·.2.2)) := by
  rcases co with _ | c <;> rcases so with _ | s <;> simp [combineConfidenceSpec]

/-- C6: `convert_composite` splits the value, matches each part
independently, and returns both matched ids together with the combined
confidence of the spec's formula: average when both parts resolved, half
when exactly one resolved, `0.0` when neither resolved (the empty
composite also lands in the last case). -/
theorem claim_C6_convert_composite_confidence (v : String)
    (colorRules sizeRules : List ConversionRule) :
    convert_composite v colorRules sizeRules =
      ((compositeColorMatch v colorRules).map (·.1),
       (compositeSizeMatch v sizeRules).map (·.1),
       combineConfidenceSpec ((compositeColorMatch v colorRules).map (·.2.2))
         ((compositeSizeMatch v sizeRules).map (·.2.2))) := by
  by_cases hv : v = ""
  · subst hv
    simp [convert_composite, compositeColorMatch, compositeSizeMatch,
      combineConfidenceSpec, parse_composite_value, parseCompositeAux,
      pyStrip, stripList]
  · simp only [convert_composite, compositeColorMatch, compositeSizeMatch,
      if_neg hv, combine_match_eq_spec]

/-- C9 (failing input): `add_color_rule` performs no validation —
`Validators.validate_confidence`, which enforces `[0, 1]`, is never called
— so a rule supplied with confidence `1.5` is written to the store, the
stored active rule set then violates `confidence ∈ [0, 1]`, and
`convert_color` returns the out-of-range confidence unmodified on an
exact match. -/
theorem claim_C9_add_color_rule_accepts_out_of_range_confidence :
    ((get_color_rules
        (add_color_rule [] 1 "ワインレッド" 7 "WineRed" (mkRat 3 2) 0)).map
      (·.confidence)) = [mkRat 3 2] ∧
    ¬ (mkRat 3 2 ≤ 1) ∧
    convert_color "ワインレッド"
        (get_color_rules (add_color_rule [] 1 "ワインレッド" 7 "WineRed" (mkRat 3 2) 0)) =
      some (7, "WineRed", mkRat 3 2) := by
  refine ⟨by decide, by decide, by decide⟩

/-- The results that `auto_convert_batch` accumulates: one per record whose
`try` block completes (in batch order); a record whose processing raises
contributes nothing. -/
def batchResultsSpec (cc cs : Option String → Except ε (Option (Int × String × ℚ)))
    (convertColors convertSizes : Bool) (threshold : ℚ) (rows : List ProductRow) :
    List ConversionResult :=
  rows.filterMap
    (fun row => (processRecord cc cs convertColors convertSizes threshold row).toOption)

/-- The history entries that `auto_convert_batch` records: one per record
whose `try` block completes and whose history write succeeds. -/
def batchHistorySpec (cc cs : Option String → Except ε (Option (Int × String × ℚ)))
    (ah : ConversionHistory → Except ε Int)
    (convertColors convertSizes : Bool) (threshold : ℚ) (rows : List ProductRow) :
    List ConversionHistory :=
  rows.filterMap (fun row =>
    match processRecord cc cs convertColors convertSizes threshold row with
    | .error _ => none
    | .ok r =>
      match ah (historyOf r) with
      | .error _ => none
      | .ok _ => some (historyOf r))

/-- Unrolling the batch fold from an arbitrary accumulated state. -/
theorem foldl_batchStep_eq (cc cs : Option String → Except ε (Option (Int × String × ℚ)))
    (ah : ConversionHistory → Except ε Int) (ccB csB : Bool) (thr : ℚ)
    (rows : List ProductRow) (a : List ConversionResult) (b : List ConversionHistory) :
    rows.foldl (batchStep cc cs ah ccB csB thr) (a, b) =
      (a ++ batchResultsSpec cc cs ccB csB thr rows,
       b ++ batchHistorySpec cc cs ah ccB csB thr rows) := by
  induction rows generalizing a b with
  | nil => simp [batchResultsSpec, batchHistorySpec]
  | cons row rest ih =>
    simp only [List.foldl_cons, batchResultsSpec, batchHistorySpec,
      List.filterMap_cons]
    rcases hpr : processRecord cc cs ccB csB thr row with e | r
    · simpa [batchStep, hpr, batchResultsSpec, batchHistorySpec] using ih a b
    · rcases hah : ah (historyOf r) with e | n
      · simpa [batchStep, hpr, hah, batchResultsSpec, batchHistorySpec,
          Except.toOption] using ih (a ++ [r]) b
      · simpa [batchStep, hpr, hah, batchResultsSpec, batchHistorySpec,
          Except.toOption] using ih (a ++ [r]) (b ++ [historyOf r])

/-- C1 (amended): a per-record exception inside `auto_convert_batch` is not
propagated and the batch continues, but the throwing record is skipped
outright: the batch yields exactly one `ConversionResult` per record whose
processing completes (and none for a record that raises), and exactly one
history entry per record whose processing completes and whose history
write succeeds — not an entry for every record. -/
theorem claim_C1_auto_convert_batch_skips_raising_records
    (cc cs : Option String → Except ε (Option (Int × String × ℚ)))
    (ah : ConversionHistory → Except ε Int) (ccB csB : Bool)
    (batchSize : Nat) (thr : ℚ) (rows : List ProductRow) :
    auto_convert_batch cc cs ah ccB csB batchSize thr rows =
      (batchResultsSpec cc cs ccB csB thr rows,
       batchHistorySpec cc cs ah ccB csB thr rows) := by
  simpa [auto_convert_batch] using
    foldl_batchStep_eq cc cs ah ccB csB thr rows [] []

/-- A `convert_color` / `convert_size` oracle that raises, as the service
does when the rule lookup fails internally. -/
def ccRaise : Option String → Except String (Option (Int × String × ℚ)) :=
  fun _ => .error "ConversionError"

/-- An `add_conversion_history` oracle that always succeeds. -/
def ahOk : ConversionHistory → Except String Int :=
  fun _ => .ok 1

/-- A pending batch record. -/
def rowP1 : ProductRow :=
  { product_id := "P1", color_name := some "レッド", size_name := some "M" }

/-- C1 (counterexample): a one-record batch whose record throws during
color conversion produces NO result and NO history entry — not the one
`failed` history entry per record the claim requires. -/
theorem claim_C1_counterexample :
    (auto_convert_batch ccRaise ccRaise ahOk true true 10 (1/2) [rowP1]).1 = [] ∧
    (auto_convert_batch ccRaise ccRaise ahOk true true 10 (1/2) [rowP1]).2 = [] := by
  constructor <;> rfl

/-- Evaluation of `processRecord` when both service calls return normally:
each branch applies its match outcome exactly when its flag is set and the
record's id field is unset. -/
theorem processRecord_ok (cc cs : Option String → Except ε (Option (Int × String × ℚ)))
    (ccB csB : Bool) (thr : ℚ) (row : ProductRow)
    (co so : Option (Int × String × ℚ))
    (hcc : cc row.color_name = Except.ok co)
    (hcs : cs row.size_name = Except.ok so) :
    processRecord cc cs ccB csB thr row =
      Except.ok (applyThreshold thr
        (applySizeResult
          (applyColorResult (initResult row)
            (if ccB && row.color_id.isNone then co else none))
          (if csB && row.size_id.isNone then so else none))) := by
  have hcn : ∀ r, applyColorResult r none = r := fun _ => rfl
  have hsn : ∀ r, applySizeResult r none = r := fun _ => rfl
  rcases h1 : ccB && row.color_id.isNone with _ | _ <;>
    rcases h2 : csB && row.size_id.isNone with _ | _ <;>
      simp [processRecord, h1, h2, hcc, hcs, hcn, hsn] <;> rfl

/-- The confidence contributed by one conversion branch of
`auto_convert_batch`: the matched confidence when the branch ran
(`flag` set, id unset) and matched, nothing otherwise. -/
def resolvedConfidence (flag : Bool) (idField : Option Int)
    (m : Option (Int × String × ℚ)) : Option ℚ :=
  if flag && idField.isNone then m.map (·.2.2) else none

/-- The claim's description of the record confidence: the maximum of
whichever color/size confidences were resolved, `0.0` when none. -/
def maxResolvedSpec (c s : Option ℚ) : ℚ :=
  match c, s with
  | some x, some y => max x y
  | some x, none => x
  | none, some y => y
  | none, none => 0

theorem applyThreshold_confidence (thr : ℚ) (r : ConversionResult) :
    (applyThreshold thr r).confidence = r.confidence := by
  unfold applyThreshold; split <;> rfl

theorem applyThreshold_status_success (thr : ℚ) (r : ConversionResult) :
    (applyThreshold thr r).status = "success" ↔ thr ≤ r.confidence := by
  by_cases h : thr ≤ r.confidence <;> simp [applyThreshold, h]

theorem applyThreshold_status_failed (thr : ℚ) (r : ConversionResult) :
    (applyThreshold thr r).status = "failed" ↔ r.confidence < thr := by
  by_cases h : thr ≤ r.confidence <;> simp [applyThreshold, h, lt_iff_not_ge]

theorem applyThreshold_error_message (thr : ℚ) (r : ConversionResult)
    (h : r.confidence < thr) :
    (applyThreshold thr r).error_message =
      some (insufficientConfidenceMessage r.confidence) := by
  simp [applyThreshold, not_le.mpr h]

/-- The running confidence after both conversion branches is the claim's
maximum of the resolved confidences, provided those are nonnegative. -/
theorem branches_confidence (row : ProductRow) (c? s? : Option (Int × String × ℚ))
    (hc0 : ∀ m, c? = some m → 0 ≤ m.2.2) (hs0 : ∀ m, s? = some m → 0 ≤ m.2.2) :
    (applySizeResult (applyColorResult (initResult row) c?) s?).confidence =
      maxResolvedSpec (c?.map (·.2.2)) (s?.map (·.2.2)) := by
  rcases c? with _ | mc <;> rcases s? with _ | ms <;>
    simp [applyColorResult, applySizeResult, initResult, maxResolvedSpec]
  · exact hs0 ms rfl
  · exact hc0 mc rfl
  · rw [show (0:ℚ) ⊔ mc.2.2 = mc.2.2 from max_eq_right (hc0 mc rfl)]

/-- C4: for a batch record whose service calls return normally (with
nonnegative matched confidences), the record confidence is the maximum of
the resolved confidences (`0.0` when none resolved), the status is
`success` exactly when `confidence ≥ threshold` (equality is a success),
otherwise `failed` with the insufficient-confidence error message carrying
the confidence. -/
theorem claim_C4_threshold_boundary
    (cc cs : Option String → Except ε (Option (Int × String × ℚ)))
    (ccB csB : Bool) (thr : ℚ) (row : ProductRow)
    (co so : Option (Int × String × ℚ))
    (hcc : cc row.color_name = Except.ok co)
    (hcs : cs row.size_name = Except.ok so)
    (hc0 : ∀ q, resolvedConfidence ccB row.color_id co = some q → 0 ≤ q)
    (hs0 : ∀ q, resolvedConfidence csB row.size_id so = some q → 0 ≤ q) :
    ∃ r, processRecord cc cs ccB csB thr row = Except.ok r ∧
      r.confidence = maxResolvedSpec (resolvedConfidence ccB row.color_id co)
        (resolvedConfidence csB row.size_id so) ∧
      (r.status = "success" ↔ thr ≤ r.confidence) ∧
      (r.status = "failed" ↔ r.confidence < thr) ∧
      (r.confidence < thr →
        r.error_message = some (insufficientConfidenceMessage r.confidence)) := by
  have hrc : resolvedConfidence ccB row.color_id co =
      (if ccB && row.color_id.isNone then co else none).map (·.2.2) := by
    rcases hb : ccB && row.color_id.isNone with _ | _ <;> simp [resolvedConfidence, hb]
  have hrs : resolvedConfidence csB row.size_id so =
      (if csB && row.size_id.isNone then so else none).map (·.2.2) := by
    rcases hb : csB && row.size_id.isNone with _ | _ <;> simp [resolvedConfidence, hb]
  have hc0' : ∀ m, (if ccB && row.color_id.isNone then co else none) = some m →
      0 ≤ m.2.2 := by
    intro m hm
    exact hc0 m.2.2 (by rw [hrc, hm]; rfl)
  have hs0' : ∀ m, (if csB && row.size_id.isNone then so else none) = some m →
      0 ≤ m.2.2 := by
    intro m hm
    exact hs0 m.2.2 (by rw [hrs, hm]; rfl)
  have hconf := branches_confidence row _ _ hc0' hs0'
  refine ⟨_, processRecord_ok cc cs ccB csB thr row co so hcc hcs, ?_, ?_, ?_, ?_⟩
  · rw [applyThreshold_confidence, hconf, hrc, hrs]
  · rw [applyThreshold_status_success, applyThreshold_confidence]
  · rw [applyThreshold_status_failed, applyThreshold_confidence]
  · intro h
    rw [applyThreshold_confidence] at h
    rw [applyThreshold_confidence, applyThreshold_error_message thr _ h]

/-- The threshold check only changes `status` (and `error_message`); the
converted id/name fields pass through untouched. -/
theorem applyThreshold_fields (thr : ℚ) (r : ConversionResult) :
    (applyThreshold thr r).converted_color_id = r.converted_color_id ∧
    (applyThreshold thr r).converted_color_name = r.converted_color_name ∧
    (applyThreshold thr r).converted_size_id = r.converted_size_id ∧
    (applyThreshold thr r).converted_size_name = r.converted_size_name := by
  unfold applyThreshold; split <;> exact ⟨rfl, rfl, rfl, rfl⟩

/-- After both conversion branches, the converted ids and names are exactly
the matched ones. -/
theorem branches_fields (row : ProductRow) (co so : Option (Int × String × ℚ)) :
    (applySizeResult (applyColorResult (initResult row) co) so).converted_color_id =
        co.map (·.1) ∧
    (applySizeResult (applyColorResult (initResult row) co) so).converted_color_name =
        co.map (·.2.1) ∧
    (applySizeResult (applyColorResult (initResult row) co) so).converted_size_id =
        so.map (·.1) ∧
    (applySizeResult (applyColorResult (initResult row) co) so).converted_size_name =
        so.map (·.2.1) := by
  cases co <;> cases so <;> simp [applyColorResult, applySizeResult, initResult]

/-- C10: an unconverted record (both ids unset, both flags on) whose
service calls return normally keeps whatever ids and names were resolved in
its `ConversionResult` and in its history entry, whatever the threshold; a
below-threshold confidence changes only the status (to `failed`) and the
error message and never clears the resolved fields. -/
theorem claim_C10_below_threshold_keeps_resolved_ids
    (cc cs : Option String → Except ε (Option (Int × String × ℚ)))
    (thr : ℚ) (row : ProductRow) (co so : Option (Int × String × ℚ))
    (hcc : cc row.color_name = Except.ok co)
    (hcs : cs row.size_name = Except.ok so)
    (hcid : row.color_id = none) (hsid : row.size_id = none) :
    ∃ r, processRecord cc cs true true thr row = Except.ok r ∧
      r.converted_color_id = co.map (·.1) ∧
      r.converted_color_name = co.map (·.2.1) ∧
      r.converted_size_id = so.map (·.1) ∧
      r.converted_size_name = so.map (·.2.1) ∧
      (historyOf r).converted_color_id = co.map (·.1) ∧
      (historyOf r).converted_size_id = so.map (·.1) ∧
      (r.confidence < thr →
        r.status = "failed" ∧
        r.error_message = some (insufficientConfidenceMessage r.confidence) ∧
        (historyOf r).status = "failed" ∧
        (historyOf r).error_message = some (insufficientConfidenceMessage r.confidence)) := by
  have hpr := processRecord_ok cc cs true true thr row co so hcc hcs
  rw [hcid, hsid] at hpr
  simp only [Option.isNone_none, Bool.and_self, if_true, Bool.and_true, reduceIte] at hpr
  refine ⟨_, hpr, ?_, ?_, ?_, ?_, ?_, ?_, ?_⟩
  · exact (applyThreshold_fields _ _).1.trans (branches_fields row co so).1
  · exact (applyThreshold_fields _ _).2.1.trans (branches_fields row co so).2.1
  · exact (applyThreshold_fields _ _).2.2.1.trans (branches_fields row co so).2.2.1
  · exact (applyThreshold_fields _ _).2.2.2.trans (branches_fields row co so).2.2.2
  · exact ((applyThreshold_fields _ _).1.trans (branches_fields row co so).1)
  · exact ((applyThreshold_fields _ _).2.2.1.trans (branches_fields row co so).2.2.1)
  · intro h
    rw [applyThreshold_confidence] at h
    have hst : (applyThreshold thr (applySizeResult (applyColorResult (initResult row) co) so)).status = "failed" :=
      (applyThreshold_status_failed thr _).mpr h
    have hmsg := applyThreshold_error_message thr _ h
    rw [applyThreshold_confidence]
    exact ⟨hst, hmsg, hst, hmsg⟩

/-- A color oracle matching with full confidence. -/
def ccFull : Option String → Except String (Option (Int × String × ℚ)) :=
  fun _ => .ok (some (1, "Red", 1))

/-- A size oracle finding no match. -/
def csMiss : Option String → Except String (Option (Int × String × ℚ)) :=
  fun _ => .ok none

/-- A pending record for the C4 witness. -/
def rowC4 : ProductRow :=
  { product_id := "P2", color_name := some "レッド", size_name := some "WW" }

/-- Witness for C4 at threshold 1 with a full-confidence color match and a
size miss. -/
theorem claim_C4_threshold_boundary_witness :
    ∃ r, processRecord ccFull csMiss true true 1 rowC4 = Except.ok r ∧
      r.confidence = maxResolvedSpec
        (resolvedConfidence true rowC4.color_id (some (1, "Red", 1)))
        (resolvedConfidence true rowC4.size_id none) ∧
      (r.status = "success" ↔ (1:ℚ) ≤ r.confidence) ∧
      (r.status = "failed" ↔ r.confidence < 1) ∧
      (r.confidence < 1 →
        r.error_message = some (insufficientConfidenceMessage r.confidence)) :=
  claim_C4_threshold_boundary ccFull csMiss true true 1 rowC4
    (some (1, "Red", 1)) none rfl rfl
    (fun q h => by
      simp [resolvedConfidence, rowC4] at h
      simp [← h])
    (fun q h => by simp [resolvedConfidence, rowC4] at h)

/-- A color oracle matching with confidence 0 (below any positive
threshold). -/
def ccWeak : Option String → Except String (Option (Int × String × ℚ)) :=
  fun _ => .ok (some (4, "Red", 0))

/-- A size oracle matching with confidence 0. -/
def csWeak : Option String → Except String (Option (Int × String × ℚ)) :=
  fun _ => .ok (some (2, "Medium", 0))

/-- A pending record for the C10 witness. -/
def rowC10 : ProductRow :=
  { product_id := "P3", color_name := some "レッドっぽい", size_name := some "M" }

/-- Witness for C10: both parts resolve with confidence 0 under threshold
1, so the record fails, yet the resolved ids stay in the result and the
history entry. -/
theorem claim_C10_below_threshold_keeps_resolved_ids_witness :
    ∃ r, processRecord ccWeak csWeak true true 1 rowC10 = Except.ok r ∧
      r.converted_color_id = (some ((4:Int), "Red", (0:ℚ))).map (·.1) ∧
      r.converted_color_name = (some ((4:Int), "Red", (0:ℚ))).map (·.2.1) ∧
      r.converted_size_id = (some ((2:Int), "Medium", (0:ℚ))).map (·.1) ∧
      r.converted_size_name = (some ((2:Int), "Medium", (0:ℚ))).map (·.2.1) ∧
      (historyOf r).converted_color_id = (some ((4:Int), "Red", (0:ℚ))).map (·.1) ∧
      (historyOf r).converted_size_id = (some ((2:Int), "Medium", (0:ℚ))).map (·.1) ∧
      (r.confidence < 1 →
        r.status = "failed" ∧
        r.error_message = some (insufficientConfidenceMessage r.confidence) ∧
        (historyOf r).status = "failed" ∧
        (historyOf r).error_message = some (insufficientConfidenceMessage r.confidence)) :=
  claim_C10_below_threshold_keeps_resolved_ids ccWeak csWeak 1 rowC10
    (some (4, "Red", 0)) (some (2, "Medium", 0)) rfl rfl rfl rfl

/-- C8: `batch_insert` carries the start/end timestamps, runs each enabled
writer whatever the other does — capturing its outcome on success and its
message in `errors` on failure — and its `success` flag is `false` exactly
when `errors` is non-empty. -/
theorem claim_C8_batch_insert_independent_writers
    (colorWriter sizeWriter : List Product → Except String InsertOutcome)
    (products : List Product) (insertColors insertSizes : Bool)
    (startedAt completedAt : Nat) (b : BatchResult)
    (hb : b = batch_insert colorWriter sizeWriter products insertColors insertSizes
      startedAt completedAt) :
    b.started_at = startedAt ∧
    b.completed_at = some completedAt ∧
    b.total_products = products.length ∧
    (b.success = false ↔ b.errors ≠ []) ∧
    (insertColors = true →
      (∀ res, colorWriter products = .ok res → b.color_result = some res) ∧
      (∀ e, colorWriter products = .error e →
        ("カラーデータ登録エラー: " ++ e) ∈ b.errors)) ∧
    (insertSizes = true →
      (∀ res, sizeWriter products = .ok res → b.size_result = some res) ∧
      (∀ e, sizeWriter products = .error e →
        ("サイズデータ登録エラー: " ++ e) ∈ b.errors)) := by
  subst hb
  rcases hic : insertColors with _ | _ <;> rcases his : insertSizes with _ | _ <;>
    rcases hcw : colorWriter products with ec | rc <;>
      rcases hsw : sizeWriter products with es | rs <;>
        simp [batch_insert, hcw, hsw]

/-- A color writer that raises. -/
def cwBoom : List Product → Except String InsertOutcome :=
  fun _ => .error "DB down"

/-- A size writer that succeeds. -/
def swFine : List Product → Except String InsertOutcome :=
  fun _ => .ok { success := true, inserted_count := 1, skipped_count := 0, message := "ok" }

/-- Witness for C8: the color writer raises, yet the size writer's outcome
is captured, the color error message is collected, and the aggregate
`success` is `false`. -/
theorem claim_C8_batch_insert_independent_writers_witness :
    (batch_insert cwBoom swFine [] true true 5 6).size_result =
      some { success := true, inserted_count := 1, skipped_count := 0, message := "ok" } ∧
    ("カラーデータ登録エラー: " ++ "DB down") ∈ (batch_insert cwBoom swFine [] true true 5 6).errors ∧
    (batch_insert cwBoom swFine [] true true 5 6).success = false := by
  obtain ⟨h1, h2, h3, h4, h5, h6⟩ :=
    claim_C8_batch_insert_independent_writers cwBoom swFine [] true true 5 6 _ rfl
  have hmem := (h5 rfl).2 "DB down" rfl
  exact ⟨(h6 rfl).1 _ rfl, hmem, h4.mpr (List.ne_nil_of_mem hmem)⟩

/-- The stored row for a record id: the (by UNIQUE, at most one) row of the
table whose `product_id` matches. -/
def lookupRow (t : List Tm9030Row) (pid : String) : Option Tm9030Row :=
  t.find? (fun x => x.product_id == pid)

theorem lookupRow_pid (t : List Tm9030Row) (pid : String) (r : Tm9030Row)
    (h : lookupRow t pid = some r) : r.product_id = pid := by
  have := List.find?_some h
  exact beq_iff_eq.mp this

/-- Effect of one upsert on lookups: the upserted key maps to the merged or
fresh row, every other key is untouched. -/
theorem lookupRow_upsert (t : List Tm9030Row) (r : Tm9030Row) (pid : String) :
    lookupRow (upsertTm9030 t r) pid =
      if pid = r.product_id then
        some (match lookupRow t r.product_id with
              | some old => overwriteWith old r
              | none => r)
      else lookupRow t pid := by
  induction t with
  | nil =>
    by_cases h : pid = r.product_id
    · simp [upsertTm9030, lookupRow, h]
    · have e : (r.product_id == pid) = false :=
        beq_eq_false_iff_ne.mpr (fun e => h e.symm)
    
      simp [upsertTm9030, lookupRow, h, e]
  | cons x xs ih =>
    by_cases hx : x.product_id = r.product_id
    · have e1 : (x.product_id == r.product_id) = true := beq_iff_eq.mpr hx
      by_cases h : pid = r.product_id
      · have e2 : (x.product_id == pid) = true := beq_iff_eq.mpr (h ▸ hx)
        simp [upsertTm9030, lookupRow, List.find?_cons, overwriteWith, e1, e2, h]
      · have e2 : (x.product_id == pid) = false := by
          refine beq_eq_false_iff_ne.mpr ?_
          intro e
          exact h (by rw [← e, hx])
        simp [upsertTm9030, lookupRow, List.find?_cons, overwriteWith, e1, e2, h]
    · have e1 : (x.product_id == r.product_id) = false := beq_eq_false_iff_ne.mpr hx
      by_cases hxp : x.product_id = pid
      · have h : ¬ pid = r.product_id := fun e => hx (by rw [hxp, e])
        have e2 : (x.product_id == pid) = true := beq_iff_eq.mpr hxp
        simp [upsertTm9030, lookupRow, List.find?_cons, e1, e2, h]
      · have e2 : (x.product_id == pid) = false := beq_eq_false_iff_ne.mpr hxp
        simp only [upsertTm9030, e1, Bool.false_eq_true, if_false]
        simp only [lookupRow, List.find?_cons, e2] at ih ⊢
        by_cases h : pid = r.product_id
        · simp only [ih, if_pos h, e1]
        · simp only [ih, if_neg h]

/-- First VALUES row of a statement carrying a given record id. -/
def firstOccRow (rs : List Tm9030Row) (pid : String) : Option Tm9030Row :=
  rs.find? (fun r => r.product_id == pid)

/-- Last VALUES row of a statement carrying a given record id (the one
whose non-`created_at` fields survive the row-by-row upsert). -/
def lastOccRow (rs : List Tm9030Row) (pid : String) : Option Tm9030Row :=
  rs.reverse.find? (fun r => r.product_id == pid)

theorem lastOcc_isSome_eq (rs : List Tm9030Row) (pid : String) :
    (lastOccRow rs pid).isSome = (firstOccRow rs pid).isSome := by
  rw [Bool.eq_iff_iff]
  simp [lastOccRow, firstOccRow, List.find?_isSome]

/-- Evaluation of a whole multi-row upsert statement at one key: no
occurrence leaves the key untouched; otherwise the stored row carries the
last occurrence's fields, with `created_at` surviving from the previous
table row, or from the first occurrence when the key is fresh. -/
theorem lookupRow_foldl_upsert (rs : List Tm9030Row) (t : List Tm9030Row) (pid : String) :
    lookupRow (rs.foldl upsertTm9030 t) pid =
      match firstOccRow rs pid with
      | none => lookupRow t pid
      | some f =>
        some { (lastOccRow rs pid).getD f with
               created_at :=
                 match lookupRow t pid with
                 | some old => old.created_at
                 | none => f.created_at } := by
  induction rs generalizing t with
  | nil => simp [firstOccRow, lastOccRow, lookupRow]
  | cons r rest ih =>
    simp only [List.foldl_cons]
    rw [ih (upsertTm9030 t r)]
    by_cases hpid : pid = r.product_id
    · have hb : (r.product_id == pid) = true := beq_iff_eq.mpr hpid.symm
      have hL : lookupRow (upsertTm9030 t r) pid =
          some (match lookupRow t pid with
                | some old => overwriteWith old r
                | none => r) := by
        rw [lookupRow_upsert, if_pos hpid, ← hpid]
      have hfirst : firstOccRow (r :: rest) pid = some r := by
        simp [firstOccRow, List.find?_cons, hb]
      have hlast : lastOccRow (r :: rest) pid = (lastOccRow rest pid).or (some r) := by
        simp [lastOccRow, List.reverse_cons, List.find?_append, List.find?_cons, hb]
      rcases hfo : firstOccRow rest pid with _ | f'
      · have h1 := lastOcc_isSome_eq rest pid
        rw [hfo] at h1
        have hlo : lastOccRow rest pid = none := by
          cases hq : lastOccRow rest pid with
          | none => rfl
          | some l => rw [hq] at h1; simp at h1
        simp only [hfo, hfirst, hlast, hlo, Option.none_or, Option.getD_some, hL]
        rcases hLt : lookupRow t pid with _ | old
        · simp
        · have hop : old.product_id = r.product_id :=
            (lookupRow_pid t pid old hLt).trans hpid
          simp [overwriteWith, hop]
      · have h1 := lastOcc_isSome_eq rest pid
        rw [hfo] at h1
        obtain ⟨l, hlo⟩ : ∃ l, lastOccRow rest pid = some l := by
          cases hq : lastOccRow rest pid with
          | none => rw [hq] at h1; simp at h1
          | some l => exact ⟨l, rfl⟩
        simp only [hfo, hfirst, hlast, hlo, Option.or, Option.getD_some, hL]
        rcases hLt : lookupRow t pid with _ | old
        · simp [overwriteWith]
        · simp [overwriteWith]
    · have hb : (r.product_id == pid) = false :=
        beq_eq_false_iff_ne.mpr (fun e => hpid e.symm)
      have hL : lookupRow (upsertTm9030 t r) pid = lookupRow t pid := by
        rw [lookupRow_upsert, if_neg hpid]
      have hfirst : firstOccRow (r :: rest) pid = firstOccRow rest pid := by
        simp [firstOccRow, List.find?_cons, hb]
      have hlast : lastOccRow (r :: rest) pid = lastOccRow rest pid := by
        simp [lastOccRow, List.reverse_cons, List.find?_append, List.find?_cons, hb,
          Option.or_none]
      simp only [hfirst, hlast, hL]

theorem length_upsert (t : List Tm9030Row) (r : Tm9030Row) :
    (upsertTm9030 t r).length =
      if (lookupRow t r.product_id).isSome then t.length else t.length + 1 := by
  induction t with
  | nil => simp [upsertTm9030, lookupRow]
  | cons x xs ih =>
    by_cases hx : x.product_id = r.product_id
    · have e : (x.product_id == r.product_id) = true := beq_iff_eq.mpr hx
      simp [upsertTm9030, lookupRow, List.find?_cons, e]
    · have e : (x.product_id == r.product_id) = false := beq_eq_false_iff_ne.mpr hx
      simp only [upsertTm9030, e, Bool.false_eq_true, if_false, List.length_cons,
        lookupRow, List.find?_cons] at ih ⊢
      rw [ih]
      by_cases hs : (List.find? (fun y => y.product_id == r.product_id) xs).isSome <;>
        simp [hs]

theorem lookupRow_isSome_upsert (t : List Tm9030Row) (r : Tm9030Row) (pid : String)
    (h : (lookupRow t pid).isSome = true) :
    (lookupRow (upsertTm9030 t r) pid).isSome = true := by
  rw [lookupRow_upsert]
  by_cases hp : pid = r.product_id
  · simp [hp]
  · simpa [hp] using h

theorem length_foldl_upsert_all_present (rs : List Tm9030Row) (t : List Tm9030Row)
    (h : ∀ r ∈ rs, (lookupRow t r.product_id).isSome = true) :
    (rs.foldl upsertTm9030 t).length = t.length := by
  induction rs generalizing t with
  | nil => rfl
  | cons r rest ih =>
    simp only [List.foldl_cons]
    rw [ih (upsertTm9030 t r)
      (fun r' hr' => lookupRow_isSome_upsert t r r'.product_id (h r' (List.mem_cons_of_mem r hr')))]
    rw [length_upsert, if_pos (h r (List.mem_cons_self r rest))]

/-- The UNIQUE-constraint invariant of the target table: no two rows share
a `product_id`. -/
def distinctPids (t : List Tm9030Row) : Prop :=
  t.Pairwise (fun a b => a.product_id ≠ b.product_id)

theorem pid_of_mem_upsert (t : List Tm9030Row) (r b : Tm9030Row)
    (hb : b ∈ upsertTm9030 t r) :
    b.product_id ∈ t.map (·.product_id) ∨ b.product_id = r.product_id := by
  induction t with
  | nil =>
    simp [upsertTm9030] at hb
    simp [hb]
  | cons x xs ih =>
    by_cases hx : x.product_id = r.product_id
    · have e : (x.product_id == r.product_id) = true := beq_iff_eq.mpr hx
      simp only [upsertTm9030, e, if_true] at hb
      rcases List.mem_cons.mp hb with hb | hb
      · left; simp [hb, overwriteWith]
      · left; simp [List.mem_map]; exact Or.inr ⟨b, hb, rfl⟩
    · have e : (x.product_id == r.product_id) = false := beq_eq_false_iff_ne.mpr hx
      simp only [upsertTm9030, e, Bool.false_eq_true, if_false] at hb
      rcases List.mem_cons.mp hb with hb | hb
      · left; simp [hb]
      · rcases ih hb with h | h
        · left; simp at h ⊢; exact Or.inr h
        · right; exact h

theorem distinctPids_upsert (t : List Tm9030Row) (r : Tm9030Row)
    (h : distinctPids t) : distinctPids (upsertTm9030 t r) := by
  induction t with
  | nil => simp [upsertTm9030, distinctPids]
  | cons x xs ih =>
    rw [distinctPids, List.pairwise_cons] at h
    obtain ⟨hhead, htail⟩ := h
    by_cases hx : x.product_id = r.product_id
    · have e : (x.product_id == r.product_id) = true := beq_iff_eq.mpr hx
      rw [distinctPids]
      simp only [upsertTm9030, e, if_true]
      rw [List.pairwise_cons]
      exact ⟨fun b hb => by simpa [overwriteWith] using hhead b hb, htail⟩
    · have e : (x.product_id == r.product_id) = false := beq_eq_false_iff_ne.mpr hx
      rw [distinctPids]
      simp only [upsertTm9030, e, Bool.false_eq_true, if_false]
      rw [List.pairwise_cons]
      refine ⟨?_, ih htail⟩
      intro b hb
      rcases pid_of_mem_upsert xs r b hb with hmem | hpid
      · rcases List.mem_map.mp hmem with ⟨a, ha, hap⟩
        rw [← hap]
        exact hhead a ha
      · rw [hpid]
        exact hx

theorem distinctPids_foldl_upsert (rs : List Tm9030Row) (t : List Tm9030Row)
    (h : distinctPids t) : distinctPids (rs.foldl upsertTm9030 t) := by
  induction rs generalizing t with
  | nil => exact h
  | cons r rest ih => exact ih (upsertTm9030 t r) (distinctPids_upsert t r h)

/-- The record ids the color writer actually writes: products whose
`color_id` is set. -/
def coloredPids (ps : List Product) : List String :=
  (ps.filter (fun p => p.color_id.isSome)).map (·.product_id)

/-- Rebuild a VALUES row with a fresh statement timestamp (what running the
writer again at a later `datetime.now()` does to each row). -/
def retime (n : Nat) (x : Tm9030Row) : Tm9030Row :=
  { x with created_at := n, updated_at := n }

theorem rows_retime (ps : List Product) (n1 n2 : Nat) :
    (ps.filter (fun p => p.color_id.isSome)).map (tm9030RowOf n2) =
      ((ps.filter (fun p => p.color_id.isSome)).map (tm9030RowOf n1)).map (retime n2) := by
  rw [List.map_map]
  rfl

theorem firstOcc_map_retime (rs : List Tm9030Row) (n : Nat) (pid : String) :
    firstOccRow (rs.map (retime n)) pid = (firstOccRow rs pid).map (retime n) := by
  simp only [firstOccRow, List.find?_map]
  rfl

theorem lastOcc_map_retime (rs : List Tm9030Row) (n : Nat) (pid : String) :
    lastOccRow (rs.map (retime n)) pid = (lastOccRow rs pid).map (retime n) := by
  simp only [lastOccRow, ← List.map_reverse, List.find?_map]
  rfl

theorem firstOcc_rows_isSome_iff (ps : List Product) (n : Nat) (pid : String) :
    (firstOccRow ((ps.filter (fun p => p.color_id.isSome)).map (tm9030RowOf n)) pid).isSome
      = true ↔ pid ∈ coloredPids ps := by
  rw [firstOccRow, List.find?_isSome]
  constructor
  · rintro ⟨x, hx, hbeq⟩
    rcases List.mem_map.mp hx with ⟨p, hp, rfl⟩
    exact List.mem_map.mpr ⟨p, hp, beq_iff_eq.mp hbeq⟩
  · intro hmem
    rcases List.mem_map.mp hmem with ⟨p, hp, rfl⟩
    exact ⟨tm9030RowOf n p, List.mem_map.mpr ⟨p, hp, rfl⟩, beq_iff_eq.mpr rfl⟩

theorem pid_mem_of_mem_rows (ps : List Product) (n : Nat) (b : Tm9030Row)
    (hb : b ∈ (ps.filter (fun p => p.color_id.isSome)).map (tm9030RowOf n)) :
    b.product_id ∈ coloredPids ps := by
  rcases List.mem_map.mp hb with ⟨p, hp, rfl⟩
  exact List.mem_map.mpr ⟨p, hp, rfl⟩

/-- C7: running `insert_tm9030color` twice over identical input is
idempotent: the second call adds no rows (same length), `created_at` of
every stored row is unchanged (never overwritten on conflict), every
written record id holds the same single row as after the first call except
for `updated_at`, which is overwritten with the second statement's
timestamp (along with `product_name`, `color_name` and `color_id`, which
the identical input overwrites with identical values); unwritten keys are
untouched, and the UNIQUE-`product_id` invariant is preserved. -/
theorem claim_C7_insert_tm9030color_idempotent (t : List Tm9030Row)
    (ps : List Product) (n1 n2 : Nat) (w1 w2 : List Tm9030Row)
    (hw1 : w1 = insert_tm9030color t ps n1)
    (hw2 : w2 = insert_tm9030color w1 ps n2) :
    w2.length = w1.length ∧
    (∀ pid, (lookupRow w2 pid).map (·.created_at) =
      (lookupRow w1 pid).map (·.created_at)) ∧
    (∀ pid, pid ∈ coloredPids ps →
      lookupRow w2 pid = (lookupRow w1 pid).map (fun r => { r with updated_at := n2 })) ∧
    (∀ pid, pid ∉ coloredPids ps → lookupRow w2 pid = lookupRow w1 pid) ∧
    (distinctPids t → distinctPids w1 ∧ distinctPids w2) := by
  subst hw1 hw2
  have hw1def : insert_tm9030color t ps n1 =
      ((ps.filter (fun p => p.color_id.isSome)).map (tm9030RowOf n1)).foldl upsertTm9030 t := rfl
  have hw2def : insert_tm9030color (insert_tm9030color t ps n1) ps n2 =
      ((ps.filter (fun p => p.color_id.isSome)).map (tm9030RowOf n2)).foldl upsertTm9030
        (insert_tm9030color t ps n1) := rfl
  -- lookups into the first write, for written keys
  have hw1look : ∀ pid, pid ∈ coloredPids ps → ∃ f1 l1,
      firstOccRow ((ps.filter (fun p => p.color_id.isSome)).map (tm9030RowOf n1)) pid = some f1 ∧
      lastOccRow ((ps.filter (fun p => p.color_id.isSome)).map (tm9030RowOf n1)) pid = some l1 ∧
      lookupRow (insert_tm9030color t ps n1) pid =
        some { l1 with created_at :=
          match lookupRow t pid with
          | some old => old.created_at
          | none => f1.created_at } := by
    intro pid hpid
    have hf : (firstOccRow ((ps.filter (fun p => p.color_id.isSome)).map (tm9030RowOf n1)) pid).isSome = true :=
      (firstOcc_rows_isSome_iff ps n1 pid).mpr hpid
    obtain ⟨f1, hf1⟩ := Option.isSome_iff_exists.mp hf
    have hl : (lastOccRow ((ps.filter (fun p => p.color_id.isSome)).map (tm9030RowOf n1)) pid).isSome = true := by
      rw [lastOcc_isSome_eq]; exact hf
    obtain ⟨l1, hl1⟩ := Option.isSome_iff_exists.mp hl
    refine ⟨f1, l1, hf1, hl1, ?_⟩
    rw [hw1def, lookupRow_foldl_upsert]
    simp only [hf1, hl1, Option.getD_some]
  have hw1some : ∀ pid, pid ∈ coloredPids ps →
      (lookupRow (insert_tm9030color t ps n1) pid).isSome = true := by
    intro pid hpid
    obtain ⟨f1, l1, _, _, hlook⟩ := hw1look pid hpid
    simp [hlook]
  -- the written-keys clause
  have hmem : ∀ pid, pid ∈ coloredPids ps →
      lookupRow (insert_tm9030color (insert_tm9030color t ps n1) ps n2) pid =
        (lookupRow (insert_tm9030color t ps n1) pid).map
          (fun r => { r with updated_at := n2 }) := by
    intro pid hpid
    obtain ⟨f1, l1, hf1, hl1, hlook⟩ := hw1look pid hpid
    have hf2 : firstOccRow ((ps.filter (fun p => p.color_id.isSome)).map (tm9030RowOf n2)) pid =
        some (retime n2 f1) := by
      rw [rows_retime ps n1 n2, firstOcc_map_retime, hf1]; rfl
    have hl2 : lastOccRow ((ps.filter (fun p => p.color_id.isSome)).map (tm9030RowOf n2)) pid =
        some (retime n2 l1) := by
      rw [rows_retime ps n1 n2, lastOcc_map_retime, hl1]; rfl
    rw [hw2def, lookupRow_foldl_upsert]
    simp only [hf2, hl2, Option.getD_some, hlook]
    rfl
  -- the unwritten-keys clause
  have hnot : ∀ pid, pid ∉ coloredPids ps →
      lookupRow (insert_tm9030color (insert_tm9030color t ps n1) ps n2) pid =
        lookupRow (insert_tm9030color t ps n1) pid := by
    intro pid hpid
    have hf2 : firstOccRow ((ps.filter (fun p => p.color_id.isSome)).map (tm9030RowOf n2)) pid =
        none := by
      cases hq : firstOccRow ((ps.filter (fun p => p.color_id.isSome)).map (tm9030RowOf n2)) pid with
      | none => rfl
      | some f =>
        exfalso
        exact hpid ((firstOcc_rows_isSome_iff ps n2 pid).mp (by simp [hq]))
    rw [hw2def, lookupRow_foldl_upsert]
    simp only [hf2]
  refine ⟨?_, ?_, hmem, hnot, ?_⟩
  · rw [hw2def]
    refine length_foldl_upsert_all_present _ _ ?_
    intro r hr
    exact hw1some r.product_id (pid_mem_of_mem_rows ps n2 r hr)
  · intro pid
    by_cases hpid : pid ∈ coloredPids ps
    · rw [hmem pid hpid]
      cases lookupRow (insert_tm9030color t ps n1) pid with
      | none => rfl
      | some r => rfl
    · rw [hnot pid hpid]
  · intro hd
    have h1 : distinctPids (insert_tm9030color t ps n1) := by
      rw [hw1def]; exact distinctPids_foldl_upsert _ t hd
    exact ⟨h1, by rw [hw2def]; exact distinctPids_foldl_upsert _ _ h1⟩

/-- A product with its color resolved, for the C7 witness. -/
def prodW : Product :=
  { product_id := "P9", product_name := "Shirt", color_name := some "Red",
    color_id := some 4 }

/-- Witness for C7: writing `[prodW]` into an empty table at time 10 and
again at time 20. -/
theorem claim_C7_insert_tm9030color_idempotent_witness :
    (insert_tm9030color (insert_tm9030color [] [prodW] 10) [prodW] 20).length =
      (insert_tm9030color [] [prodW] 10).length ∧
    (∀ pid,
      (lookupRow (insert_tm9030color (insert_tm9030color [] [prodW] 10) [prodW] 20) pid).map
          (·.created_at) =
        (lookupRow (insert_tm9030color [] [prodW] 10) pid).map (·.created_at)) ∧
    (∀ pid, pid ∈ coloredPids [prodW] →
      lookupRow (insert_tm9030color (insert_tm9030color [] [prodW] 10) [prodW] 20) pid =
        (lookupRow (insert_tm9030color [] [prodW] 10) pid).map
          (fun r => { r with updated_at := 20 })) ∧
    (∀ pid, pid ∉ coloredPids [prodW] →
      lookupRow (insert_tm9030color (insert_tm9030color [] [prodW] 10) [prodW] 20) pid =
        lookupRow (insert_tm9030color [] [prodW] 10) pid) ∧
    (distinctPids [] →
      distinctPids (insert_tm9030color [] [prodW] 10) ∧
      distinctPids (insert_tm9030color (insert_tm9030color [] [prodW] 10) [prodW] 20)) :=
  claim_C7_insert_tm9030color_idempotent [] [prodW] 10 20 _ _ rfl rfl

end ColorSizeTool
